import Mathlib

/-!
Verification of the VTL manual-examples test harness (`run_manual_examples.py`).

The development shallowly embeds the harness's core logic:
* Python string operations used by the harness (`str.replace`, substring `in`);
* the Structure Normalizer `format_structure`, over a JSON-like value type,
  modelled in state-passing style (the Python function mutates its argument in
  place and returns a freshly built structure, so the model returns the pair
  of the post-call state of the argument and the returned value);
* the Case Executor `run_test`, with the filesystem / pandas / vtlengine
  collaborators treated as an opaque environment, as the specification itself
  prescribes ("treated as an opaque callable");
* the Selection Engine and Result Reporter logic of `main`.

All definitions are executable; theorems at the end settle the specification
claims.
-/

set_option maxHeartbeats 1000000

namespace VtlHarness

/-! ## Python string primitives -/

/-- Python `s.replace(pat, rep)` on character lists: replace all
non-overlapping occurrences of `pat`, scanning left to right.  The `fuel`
argument (instantiated with the length of the string) only makes the
recursion structural; it never runs out when `fuel ≥ s.length`.  The harness
only ever calls `replace` with non-empty literal patterns; for an empty
pattern this model leaves the string unchanged. -/
def replaceFuel (pat rep : List Char) : Nat → List Char → List Char
  | _, [] => []
  | 0, s => s
  | fuel + 1, c :: cs =>
    if pat <+: (c :: cs) ∧ pat ≠ [] then
      rep ++ replaceFuel pat rep fuel ((c :: cs).drop pat.length)
    else
      c :: replaceFuel pat rep fuel cs

/-- Python `s.replace(pat, rep)` on strings. -/
def pyReplace (s pat rep : String) : String :=
  String.mk (replaceFuel pat.toList rep.toList s.toList.length s.toList)

/-- Python substring test `needle in hay`. -/
def pyIn (needle hay : String) : Bool :=
  decide (needle.toList <:+: hay.toList)

/-- The type-tag rewriting applied to one `data_type` value
(`run_manual_examples.py`, lines 18-21): first `TimePeriod` is replaced by
`Time_Period` (guarded by a substring test, matching the source's `if`),
then `TimeInterval` by `Time_Interval` on the possibly already rewritten
value. -/
def rewriteType (s : String) : String :=
  let s1 := if pyIn "TimePeriod" s then pyReplace s "TimePeriod" "Time_Period" else s
  if pyIn "TimeInterval" s1 then pyReplace s1 "TimeInterval" "Time_Interval" else s1

/-! ## JSON-like values

`format_structure` receives the result of `json.load`, a tree of dicts,
lists, strings, numbers and booleans.  Dicts are modelled as association
lists in insertion order (Python dicts preserve insertion order, and the
dicts produced by `json.load` have unique keys). -/

inductive JValue where
  | str : String → JValue
  | bool : Bool → JValue
  | num : Int → JValue
  | arr : List JValue → JValue
  | obj : List (String × JValue) → JValue

/-- Python `d[k]` read on a dict (first binding of the key; keys are
unique). -/
def jlookup (o : List (String × JValue)) (k : String) : Option JValue :=
  match o with
  | [] => none
  | (k', v) :: rest => if k' = k then some v else jlookup rest k

/-- Python `d[k] = v` on a dict: overwrite in place if the key exists
(keeping its position), append a new binding otherwise. -/
def setKey (o : List (String × JValue)) (k : String) (v : JValue) :
    List (String × JValue) :=
  match o with
  | [] => [(k, v)]
  | (k', v') :: rest => if k' = k then (k', v) :: rest else (k', v') :: setKey rest k v

/-- Monadic map over `Option`, failing as soon as one element fails; this is
how a Python `for` loop or comprehension propagates an exception. -/
def optMapM (f : α → Option β) : List α → Option (List β)
  | [] => some []
  | a :: as => do
    let b ← f a
    let bs ← optMapM f as
    some (b :: bs)

/-- Read a field of a JSON object (`none` on a non-object or missing key). -/
def jget (d : JValue) (k : String) : Option JValue :=
  match d with
  | .obj o => jlookup o k
  | _ => none

/-- Index into a JSON array (`none` on a non-array or out of range). -/
def jidx (d : JValue) (i : Nat) : Option JValue :=
  match d with
  | .arr l => l[i]?
  | _ => none

/-! ## The Structure Normalizer (`format_structure`, lines 15-39)

The Python function first mutates every component's `data_type` in place
(lines 16-21) and then builds the returned canonical structure from the
mutated dict (lines 23-39).  The mutation pass is `mutStructures`; the
output pass is `buildOutput`; `format_structure` returns the pair
(post-call state of the argument, returned value).  A raised exception
(`KeyError` on a missing key, `TypeError` on a wrongly shaped value) is
modelled as `none`; a non-string `data_type` is also modelled as an error,
the schema data model declaring `data_type` a string. -/

/-- Mutation of one component (lines 18-21): rewrite its `data_type`. -/
def mutComponent (comp : JValue) : Option JValue :=
  match comp with
  | .obj o =>
    match jlookup o "data_type" with
    | some (.str s) => some (.obj (setKey o "data_type" (.str (rewriteType s))))
    | _ => none
  | _ => none

/-- Mutation pass over one dataset's components (line 17). -/
def mutDataset (ds : JValue) : Option JValue :=
  match ds with
  | .obj o =>
    match jlookup o "components" with
    | some (.arr comps) =>
      (optMapM mutComponent comps).map fun comps' =>
        .obj (setKey o "components" (.arr comps'))
    | _ => none
  | _ => none

/-- Mutation pass over the whole raw structure (line 16). -/
def mutStructures (d : JValue) : Option JValue :=
  match d with
  | .obj o =>
    match jlookup o "structures" with
    | some (.arr dss) =>
      (optMapM mutDataset dss).map fun dss' =>
        .obj (setKey o "structures" (.arr dss'))
    | _ => none
  | _ => none

/-- Python `comp["role"] != "Identifier"` is `False` exactly when the role
is the string `"Identifier"` (a non-string value compares unequal). -/
def isIdentifierRole : JValue → Bool
  | .str s => s == "Identifier"
  | _ => false

/-- Output row for one component (lines 28-33): field names `name`, `type`,
`role`, `nullable`; `nullable` defaults to `role != "Identifier"` when the
raw component carries no explicit `nullable`, and is passed through
verbatim otherwise. -/
def formatComponent (comp : JValue) : Option JValue :=
  match comp with
  | .obj o => do
    let name ← jlookup o "name"
    let dtype ← jlookup o "data_type"
    let role ← jlookup o "role"
    let nullable :=
      match jlookup o "nullable" with
      | some v => v
      | none => .bool (!isIdentifierRole role)
    some (.obj [("name", name), ("type", dtype), ("role", role), ("nullable", nullable)])
  | _ => none

/-- Output row for one dataset (lines 25-36). -/
def formatDataset (ds : JValue) : Option JValue :=
  match ds with
  | .obj o => do
    let name ← jlookup o "name"
    match jlookup o "components" with
    | some (.arr comps) => do
      let comps' ← optMapM formatComponent comps
      some (.obj [("name", name), ("DataStructure", .arr comps')])
    | _ => none
  | _ => none

/-- The returned structure (lines 23-39), built from the mutated dict. -/
def buildOutput (d : JValue) : Option JValue :=
  match d with
  | .obj o =>
    match jlookup o "structures" with
    | some (.arr dss) =>
      (optMapM formatDataset dss).map fun dss' => .obj [("datasets", .arr dss')]
    | _ => none
  | _ => none

/-- `format_structure` in state-passing style: the first component of the
result is the post-call state of the caller's dict, the second the returned
value. -/
def format_structure (d : JValue) : Option (JValue × JValue) := do
  let d' ← mutStructures d
  let out ← buildOutput d'
  some (d', out)

/-- The value `format_structure` returns to its caller. -/
def formatStructureRet (d : JValue) : Option JValue :=
  (format_structure d).map Prod.snd

/-- The state of the caller's dict after `format_structure` returns. -/
def formatStructureArg (d : JValue) : Option JValue :=
  (format_structure d).map Prod.fst

/-! ## The Case Executor (`run_test`, lines 52-76)

`run_test` wraps its whole body in `try/except`.  The body performs a
sequence of fallible steps against external collaborators (file loading,
`format_structure` on fixture files, `pandas`, `load_datasets_with_data`,
the engine's `run`) and ends with the comparison
`result != reference_datasets`.  The spec treats those collaborators as
opaque, so the body's behaviour is an environment value: either some step
raised an exception carrying a message, or every step completed and the
comparison came out equal or unequal. -/

/-- What happened inside the `try` block of `run_test` for one case. -/
inductive ExecOutcome where
  | raises (msg : String)
  | completes (equal : Bool)
  deriving DecidableEq, Repr

/-- One result row `(operator, example, result, error)` as produced by
`run_test` (lines 70, 71, 76) and by the selection loop (line 96). -/
structure Outcome where
  operator : String
  testName : String
  result : String
  error : String
  deriving DecidableEq, Repr

/-- Newline flattening of an exception message (lines 73-75): the
replacement is guarded by a containment test, as in the source. -/
def flattenError (msg : String) : String :=
  if pyIn "\n" msg then pyReplace msg "\n" " " else msg

/-- `run_test` (lines 52-76): one outcome per invocation; an exception
anywhere in the body becomes a `Fail` outcome carrying the flattened
message; a completed run yields `Ok` with empty detail on equality and
`Fail` with the fixed detail `"Assertion Error"` otherwise. -/
def run_test (testDir operator : String) (exec : ExecOutcome) : Outcome :=
  match exec with
  | .raises msg => ⟨operator, testDir, "Fail", flattenError msg⟩
  | .completes equal =>
    if equal then ⟨operator, testDir, "Ok", ""⟩
    else ⟨operator, testDir, "Fail", "Assertion Error"⟩

/-! ## The Selection Engine and Reporter (`main`, lines 84-132)

`selected_tests` and `not_implemented` are
`Optional[Dict[str, Union[str, List[str]]]]` values: an optional dict
mapping a group name to either a single case name or a list of case
names.  The fixture tree under `engine_files` is a list of
(group directory, case directories) pairs in enumeration order. -/

/-- A `Union[str, List[str]]` dict value. -/
inductive SelVal where
  | str : String → SelVal
  | list : List String → SelVal
  deriving DecidableEq, Repr

/-- A `Dict[str, Union[str, List[str]]]` in insertion order. -/
abbrev SelDict := List (String × SelVal)

/-- Python membership `name in value` on a dict value: substring test on a
string, equality membership on a list. -/
def SelVal.containsName (v : SelVal) (name : String) : Bool :=
  match v with
  | .str s => pyIn name s
  | .list l => l.contains name

/-- Python iteration `for t in value` on a dict value: a string yields its
characters as one-character strings, a list yields its elements. -/
def SelVal.iter : SelVal → List String
  | .str s => s.toList.map (fun c => String.mk [c])
  | .list l => l

/-- Python truthiness of an optional dict: `None` and `{}` are falsy. -/
def truthy : Option SelDict → Bool
  | none => false
  | some l => !l.isEmpty

/-- Key membership `k in d` (only reached when `d` is truthy). -/
def optHasKey (d : Option SelDict) (k : String) : Bool :=
  match d with
  | none => false
  | some l => l.any (fun p => p.1 == k)

/-- Python `d.get(k, [])` (only reached when `d` is truthy). -/
def optGetD (d : Option SelDict) (k : String) : SelVal :=
  match d with
  | none => .list []
  | some l =>
    match l.find? (fun p => p.1 == k) with
    | some p => p.2
    | none => .list []

/-- Line 92: `if selected_tests and operator_dir.name not in selected_tests:
continue` — the group is visited unless this fires. -/
def allowPass (selected_tests : Option SelDict) (g : String) : Bool :=
  !(truthy selected_tests && !optHasKey selected_tests g)

/-- Line 95: `if not_implemented and operator_dir.name in not_implemented`. -/
def denyKeyHit (not_implemented : Option SelDict) (g : String) : Bool :=
  truthy not_implemented && optHasKey not_implemented g

/-- Lines 101-105: the guard deciding whether `run_test` is invoked for a
discovered case. -/
def shouldRun (selected_tests not_implemented : Option SelDict)
    (g t : String) : Bool :=
  (!truthy selected_tests || (optGetD selected_tests g).containsName t)
    && (!truthy not_implemented || !(optGetD not_implemented g).containsName t)

/-- The outcomes contributed by one operator-group directory
(lines 90-106): nothing if the group is filtered out; otherwise first the
synthesized Not-implemented rows (lines 95-97), then one `run_test`
invocation per admitted case directory (lines 99-106). -/
def groupResults (selected_tests not_implemented : Option SelDict)
    (runCase : String → String → Outcome) (g : String) (cases : List String) :
    List Outcome :=
  if allowPass selected_tests g then
    (if denyKeyHit not_implemented g then
      (optGetD not_implemented g).iter.map fun t => ⟨g, t, "Not implemented", ""⟩
    else [])
      ++ (cases.filter (shouldRun selected_tests not_implemented g)).map (runCase g)
  else []

/-- The full `results` list accumulated by the loop of lines 88-106 over
the fixture tree. -/
def mainResults (dirs : List (String × List String))
    (selected_tests not_implemented : Option SelDict)
    (runCase : String → String → Outcome) : List Outcome :=
  (dirs.map fun p => groupResults selected_tests not_implemented runCase p.1 p.2).flatten

/-- The record file content (lines 112-117): written only when
`selected_tests is None or selected_tests == {}`, with the fixed header row
followed by one row per outcome in encounter order; the file is opened in
mode `'w'`, so the content is independent of any prior file. -/
def recordFile (selected_tests : Option SelDict) (results : List Outcome) :
    Option (List (List String)) :=
  if selected_tests = none ∨ selected_tests = some [] then
    some (["Operator", "Example", "Result", "Error"]
      :: results.map fun o => [o.operator, o.testName, o.result, o.error])
  else none

/-- The printed Run Summary (lines 120-132). -/
structure Summary where
  notImplementedTests : Nat
  totalTests : Nat
  passedTests : Nat
  failedTests : Nat
  successPercentage : Nat
  deriving DecidableEq, Repr

/-- Line 120: `sum(1 for test in not_implemented.values() for _ in test)`.
When `not_implemented` is `None`, the attribute access `.values()` raises
`AttributeError`, modelled as `none`. -/
def notImplementedCount : Option SelDict → Option Nat
  | none => none
  | some d => some ((d.map fun p => p.2.iter.length).sum)

/-- Lines 120-124: the summary arithmetic.  `passed * 100 // total` is
Python floor division of non-negative integers, i.e. `Nat` division; the
`if total_tests else 0` guard avoids division by zero. -/
def computeSummary (results : List Outcome) (not_implemented : Option SelDict) :
    Option Summary :=
  (notImplementedCount not_implemented).map fun ni =>
    let total := results.length
    let passed := (results.filter fun o => o.result == "Ok").length
    let failed := total - passed
    let pct := if total ≠ 0 then passed * 100 / total else 0
    ⟨ni, total, passed, failed, pct⟩

/-- `main` (lines 84-132): collect the outcomes, produce the record-file
content (when unfiltered), then compute the summary.  The whole run is
`none` when the summary computation raises (which happens exactly when
`not_implemented` is `None`); the per-case console printing has no
observable effect beyond the outcomes themselves and is omitted. -/
def main (dirs : List (String × List String))
    (selected_tests not_implemented : Option SelDict)
    (runCase : String → String → Outcome) :
    Option (List Outcome × Option (List (List String)) × Summary) :=
  let results := mainResults dirs selected_tests not_implemented runCase
  let record := recordFile selected_tests results
  (computeSummary results not_implemented).map fun s => (results, record, s)

/-- The Selection Engine invokes `run_test(test_dir, operator_dir.name)`
(line 106); `envCase env` is that invocation under the environment `env`
(indexed by group and case name). -/
def envCase (env : String → String → ExecOutcome) :
    String → String → Outcome :=
  fun g t => run_test t g (env g t)

/-! ## Concrete fixture values used by witnesses and counterexamples -/

/-- A raw schema description: one dataset with an identifier whose type tag
needs the `TimePeriod` rewrite, a measure, and an attribute with an explicit
`nullable` and a `TimeInterval` tag. -/
def exInput : JValue :=
  .obj [("structures", .arr [.obj [("name", .str "DS_1"), ("components", .arr [
    .obj [("name", .str "Id_1"), ("data_type", .str "TimePeriod"),
      ("role", .str "Identifier")],
    .obj [("name", .str "Me_1"), ("data_type", .str "String"),
      ("role", .str "Measure")],
    .obj [("name", .str "At_1"), ("data_type", .str "TimeInterval"),
      ("role", .str "Attribute"), ("nullable", .bool false)]])]])]

/-- `exInput` after the in-place mutation pass of `format_structure`. -/
def exInputMut : JValue :=
  .obj [("structures", .arr [.obj [("name", .str "DS_1"), ("components", .arr [
    .obj [("name", .str "Id_1"), ("data_type", .str "Time_Period"),
      ("role", .str "Identifier")],
    .obj [("name", .str "Me_1"), ("data_type", .str "String"),
      ("role", .str "Measure")],
    .obj [("name", .str "At_1"), ("data_type", .str "Time_Interval"),
      ("role", .str "Attribute"), ("nullable", .bool false)]])]])]

/-- The canonical structure `format_structure` returns for `exInput`. -/
def exOutput : JValue :=
  .obj [("datasets", .arr [.obj [("name", .str "DS_1"), ("DataStructure", .arr [
    .obj [("name", .str "Id_1"), ("type", .str "Time_Period"),
      ("role", .str "Identifier"), ("nullable", .bool false)],
    .obj [("name", .str "Me_1"), ("type", .str "String"),
      ("role", .str "Measure"), ("nullable", .bool true)],
    .obj [("name", .str "At_1"), ("type", .str "Time_Interval"),
      ("role", .str "Attribute"), ("nullable", .bool false)]])]])]

/-- The fixture tree of the specification's selection scenario. -/
def exDirs : List (String × List String) :=
  [("G1", ["c1", "c2", "c3"]), ("G2", ["c4"])]

/-- The allow-list of the specification's selection scenario. -/
def exAllow : Option SelDict := some [("G1", .list ["c1"])]

/-- The deny-list of the specification's selection scenario. -/
def exDeny : Option SelDict := some [("G1", .list ["c2"])]

/-- A case executor whose every case passes. -/
def exRunCase : String → String → Outcome := fun g t => ⟨g, t, "Ok", ""⟩

/-- The outcome list of the specification's summary example. -/
def exSummaryOutcomes : List Outcome :=
  [⟨"G", "a", "Ok", ""⟩, ⟨"G", "b", "Ok", ""⟩, ⟨"G", "c", "Fail", "x"⟩,
   ⟨"G", "d", "Not implemented", ""⟩]

/-! ## Generic list lemmas about occurrences across an append -/

theorem prefix_append_cases {α : Type} {p a b : List α} (h : p <+: a ++ b) :
    p <+: a ∨ (a <+: p ∧ p.drop a.length <+: b) := by
  by_cases hl : p.length ≤ a.length
  · exact Or.inl (List.prefix_of_prefix_length_le h (List.prefix_append a b) hl)
  · have ha : a <+: p :=
      List.prefix_of_prefix_length_le (List.prefix_append a b) h (by omega)
    refine Or.inr ⟨ha, ?_⟩
    obtain ⟨t, ht⟩ := h
    obtain ⟨u, hu⟩ := ha
    subst hu
    rw [List.append_assoc] at ht
    have hub : u ++ t = b := List.append_cancel_left ht
    exact ⟨t, by simpa [List.drop_left] using hub⟩

theorem infix_append_cases {α : Type} {p a b : List α} (h : p <:+: a ++ b) :
    p <:+: a ∨ p <:+: b ∨
      ∃ u v, p = u ++ v ∧ u ≠ [] ∧ v ≠ [] ∧ u <:+ a ∧ v <+: b := by
  induction a with
  | nil => exact Or.inr (Or.inl (by simpa using h))
  | cons x a ih =>
    rw [List.cons_append, List.infix_cons_iff] at h
    rcases h with h | h
    · rcases p with _ | ⟨c, p'⟩
      · exact Or.inl List.nil_infix
      · rw [List.cons_prefix_cons] at h
        obtain ⟨rfl, hp'⟩ := h
        rcases prefix_append_cases hp' with h1 | ⟨h1, h2⟩
        · exact Or.inl (List.IsPrefix.isInfix (List.cons_prefix_cons.mpr ⟨rfl, h1⟩))
        · by_cases hv : p'.drop a.length = []
          · have hlen : p'.length ≤ a.length := by
              have := congrArg List.length hv
              simp only [List.length_drop, List.length_nil] at this
              omega
            have hpa : a = p' :=
              List.IsPrefix.eq_of_length h1
                (Nat.le_antisymm (List.IsPrefix.length_le h1) hlen)
            subst hpa
            exact Or.inl (List.IsPrefix.isInfix
              (List.cons_prefix_cons.mpr ⟨rfl, List.prefix_rfl⟩))
          · obtain ⟨u, hu⟩ := h1
            have hdrop : p'.drop a.length = u := by
              rw [← hu, List.drop_left]
            refine Or.inr (Or.inr ⟨c :: a, p'.drop a.length, ?_, by simp, hv,
              List.suffix_rfl, h2⟩)
            rw [hdrop, List.cons_append, hu]
    · rcases ih h with h1 | h1 | ⟨u, v, h1, h2, h3, h4, h5⟩
      · exact Or.inl (List.IsInfix.trans h1 (List.IsSuffix.isInfix (List.suffix_cons x a)))
      · exact Or.inr (Or.inl h1)
      · exact Or.inr (Or.inr ⟨u, v, h1, h2, h3,
          List.IsSuffix.trans h4 (List.suffix_cons x a), h5⟩)

/-! ## Structure of `replaceFuel` results -/

theorem replaceFuel_nil (pat rep : List Char) (fuel : Nat) :
    replaceFuel pat rep fuel [] = [] := by
  cases fuel <;> rfl

theorem replaceFuel_succ_pos (pat rep : List Char) {c : Char} {cs : List Char}
    (fuel : Nat) (h : pat <+: (c :: cs) ∧ pat ≠ []) :
    replaceFuel pat rep (fuel + 1) (c :: cs)
      = rep ++ replaceFuel pat rep fuel ((c :: cs).drop pat.length) := by
  simp only [replaceFuel, if_pos h]

theorem replaceFuel_succ_neg (pat rep : List Char) {c : Char} {cs : List Char}
    (fuel : Nat) (h : ¬(pat <+: (c :: cs) ∧ pat ≠ [])) :
    replaceFuel pat rep (fuel + 1) (c :: cs)
      = c :: replaceFuel pat rep fuel cs := by
  simp only [replaceFuel, if_neg h]

/-- A short prefix (no longer than the replacement) of a `replaceFuel`
result is either a prefix of the original string, or a prefix of the
original followed by a non-empty prefix of the replacement. -/
theorem prefix_replaceFuel {pat rep : List Char} :
    ∀ fuel, ∀ s q : List Char, s.length ≤ fuel → q.length ≤ rep.length →
      q <+: replaceFuel pat rep fuel s →
      q <+: s ∨ ∃ d e, q = d ++ e ∧ d <+: s ∧ e ≠ [] ∧ e <+: rep := by
  intro fuel
  induction fuel with
  | zero =>
    intro s q hs _ hq
    have hnil : s = [] := List.eq_nil_of_length_eq_zero (Nat.le_zero.mp hs)
    subst hnil
    rw [replaceFuel_nil] at hq
    rw [List.prefix_nil.mp hq]
    exact Or.inl List.nil_prefix
  | succ fuel ih =>
    intro s q hs hqlen hq
    cases s with
    | nil =>
      rw [replaceFuel_nil] at hq
      rw [List.prefix_nil.mp hq]
      exact Or.inl List.nil_prefix
    | cons c cs =>
      have hcs : cs.length ≤ fuel := by
        simp only [List.length_cons] at hs; omega
      by_cases hm : pat <+: (c :: cs) ∧ pat ≠ []
      · rw [replaceFuel_succ_pos pat rep fuel hm] at hq
        by_cases hq0 : q = []
        · subst hq0; exact Or.inl List.nil_prefix
        · have hqr : q <+: rep :=
            List.prefix_of_prefix_length_le hq (List.prefix_append _ _) hqlen
          exact Or.inr ⟨[], q, by simp, List.nil_prefix, hq0, hqr⟩
      · rw [replaceFuel_succ_neg pat rep fuel hm] at hq
        cases q with
        | nil => exact Or.inl List.nil_prefix
        | cons d q' =>
          rw [List.cons_prefix_cons] at hq
          obtain ⟨rfl, hq'⟩ := hq
          have hq'len : q'.length ≤ rep.length := by
            simp only [List.length_cons] at hqlen; omega
          rcases ih cs q' hcs hq'len hq' with h1 | ⟨d', e, rfl, hd, he, hee⟩
          · exact Or.inl (List.cons_prefix_cons.mpr ⟨rfl, h1⟩)
          · exact Or.inr ⟨d :: d', e, by simp,
              List.cons_prefix_cons.mpr ⟨rfl, hd⟩, he, hee⟩

/-- Core occurrence lemma: if the pattern `pat'` does not straddle the
replacement `rep` in any way (the three side conditions), then after
replacing `pat` no occurrence of `pat'` remains — both for `pat' = pat`
(all occurrences removed) and for any `pat'` that did not occur in the
input (no occurrence created). -/
theorem replaceFuel_no_occ {pat rep pat' : List Char}
    (hpat : pat ≠ []) (hp' : pat' ≠ [])
    (hlen : pat'.length ≤ rep.length + 1)
    (hrep : ¬ pat' <:+: rep)
    (hsc2 : ∀ i, i < pat'.length → 0 < i → ¬ (pat'.take i <:+ rep))
    (hsc3 : ∀ i, i < pat'.length → 0 < i → ¬ (pat'.drop i <+: rep)) :
    ∀ fuel, ∀ s : List Char, s.length ≤ fuel →
      (pat' = pat ∨ ¬ pat' <:+: s) → ¬ pat' <:+: replaceFuel pat rep fuel s := by
  intro fuel
  induction fuel with
  | zero =>
    intro s hs _ hocc
    have hnil : s = [] := List.eq_nil_of_length_eq_zero (Nat.le_zero.mp hs)
    subst hnil
    rw [replaceFuel_nil] at hocc
    exact hp' (List.infix_nil.mp hocc)
  | succ fuel ih =>
    intro s hs hside hocc
    cases s with
    | nil =>
      rw [replaceFuel_nil] at hocc
      exact hp' (List.infix_nil.mp hocc)
    | cons c cs =>
      have hcs : cs.length ≤ fuel := by
        simp only [List.length_cons] at hs; omega
      by_cases hm : pat <+: (c :: cs) ∧ pat ≠ []
      · rw [replaceFuel_succ_pos pat rep fuel hm] at hocc
        rcases infix_append_cases hocc with h1 | h1 | ⟨u, v, huv, hu, hv, husuf, _⟩
        · exact hrep h1
        · have hdlen : ((c :: cs).drop pat.length).length ≤ fuel := by
            have hpos : 0 < pat.length := List.length_pos.mpr hm.2
            simp only [List.length_drop, List.length_cons]
            omega
          have hside' : pat' = pat ∨ ¬ pat' <:+: (c :: cs).drop pat.length := by
            rcases hside with h | h
            · exact Or.inl h
            · exact Or.inr fun hh =>
                h (List.IsInfix.trans hh
                  (List.IsSuffix.isInfix (List.drop_suffix _ _)))
          exact ih _ hdlen hside' h1
        · have hi : u.length < pat'.length := by
            have := List.length_pos.mpr hv
            rw [huv]; simp only [List.length_append]; omega
          have hipos : 0 < u.length := List.length_pos.mpr hu
          have htake : pat'.take u.length = u := by
            rw [huv, List.take_left]
          exact hsc2 u.length hi hipos (by rw [htake]; exact husuf)
      · rw [replaceFuel_succ_neg pat rep fuel hm] at hocc
        have hnp : ¬ pat <+: (c :: cs) := fun hh => hm ⟨hh, hpat⟩
        rw [List.infix_cons_iff] at hocc
        rcases hocc with hocc | hocc
        · cases hq : pat' with
          | nil => exact hp' hq
          | cons c' p2 =>
            subst hq
            rw [List.cons_prefix_cons] at hocc
            obtain ⟨rfl, hp2⟩ := hocc
            by_cases hp20 : p2 = []
            · subst hp20
              have hpre : [c'] <+: (c' :: cs) :=
                List.cons_prefix_cons.mpr ⟨rfl, List.nil_prefix⟩
              rcases hside with h | h
              · exact hnp (h ▸ hpre)
              · exact h (List.IsPrefix.isInfix hpre)
            · have hlen2 : p2.length ≤ rep.length := by
                simp only [List.length_cons] at hlen; omega
              rcases prefix_replaceFuel fuel cs p2 hcs hlen2 hp2 with
                h1 | ⟨d, e, hde, _, he, hee⟩
              · have hpre : c' :: p2 <+: c' :: cs :=
                  List.cons_prefix_cons.mpr ⟨rfl, h1⟩
                rcases hside with h | h
                · exact hnp (h ▸ hpre)
                · exact h (List.IsPrefix.isInfix hpre)
              · have hdrop : (c' :: p2).drop (d.length + 1) = e := by
                  rw [hde, List.drop_succ_cons, List.drop_left]
                have hi : d.length + 1 < (c' :: p2).length := by
                  have := List.length_pos.mpr he
                  simp only [List.length_cons, hde, List.length_append]
                  omega
                exact hsc3 (d.length + 1) hi (by omega) (hdrop ▸ hee)
        · have hside' : pat' = pat ∨ ¬ pat' <:+: cs := by
            rcases hside with h | h
            · exact Or.inl h
            · exact Or.inr fun hh =>
                h (List.IsInfix.trans hh
                  (List.IsSuffix.isInfix (List.suffix_cons c cs)))
          exact ih cs hcs hside' hocc

/-! ## No occurrence of either pattern survives `rewriteType` -/

theorem pyReplace_no_self_tp (s : String) :
    ¬ ("TimePeriod".toList <:+: (pyReplace s "TimePeriod" "Time_Period").toList) :=
  replaceFuel_no_occ (by decide) (by decide) (by decide) (by decide)
    (by decide) (by decide) _ _ le_rfl (Or.inl rfl)

theorem pyReplace_no_self_ti (s : String) :
    ¬ ("TimeInterval".toList <:+: (pyReplace s "TimeInterval" "Time_Interval").toList) :=
  replaceFuel_no_occ (by decide) (by decide) (by decide) (by decide)
    (by decide) (by decide) _ _ le_rfl (Or.inl rfl)

theorem pyReplace_ti_no_create_tp {s : String}
    (h : ¬ ("TimePeriod".toList <:+: s.toList)) :
    ¬ ("TimePeriod".toList <:+: (pyReplace s "TimeInterval" "Time_Interval").toList) :=
  replaceFuel_no_occ (by decide) (by decide) (by decide) (by decide)
    (by decide) (by decide) _ _ le_rfl (Or.inr h)

/-- After `rewriteType`, the rewritten tag contains neither `TimePeriod`
nor `TimeInterval` as a substring. -/
theorem rewriteType_no_occ (s : String) :
    ¬ ("TimePeriod".toList <:+: (rewriteType s).toList) ∧
    ¬ ("TimeInterval".toList <:+: (rewriteType s).toList) := by
  have key : ∀ t : String, ¬ ("TimePeriod".toList <:+: t.toList) →
      ¬ ("TimePeriod".toList <:+:
          (if pyIn "TimeInterval" t then pyReplace t "TimeInterval" "Time_Interval"
            else t).toList) ∧
      ¬ ("TimeInterval".toList <:+:
          (if pyIn "TimeInterval" t then pyReplace t "TimeInterval" "Time_Interval"
            else t).toList) := by
    intro t ht
    by_cases hg : pyIn "TimeInterval" t = true
    · rw [if_pos hg]
      exact ⟨pyReplace_ti_no_create_tp ht, pyReplace_no_self_ti t⟩
    · rw [if_neg hg]
      exact ⟨ht, fun hocc => hg (decide_eq_true_iff.mpr hocc)⟩
  have h1 : ¬ ("TimePeriod".toList <:+:
      (if pyIn "TimePeriod" s then pyReplace s "TimePeriod" "Time_Period"
        else s).toList) := by
    by_cases hg : pyIn "TimePeriod" s = true
    · rw [if_pos hg]; exact pyReplace_no_self_tp s
    · rw [if_neg hg]; exact fun hocc => hg (decide_eq_true_iff.mpr hocc)
  exact key _ h1

/-- A tag containing neither pattern is left unchanged by `rewriteType`. -/
theorem rewriteType_eq_self {t : String} (h1 : pyIn "TimePeriod" t = false)
    (h2 : pyIn "TimeInterval" t = false) : rewriteType t = t := by
  unfold rewriteType
  simp only [h1, Bool.false_eq_true, if_false, h2]

/-- The type-tag rewriting is idempotent. -/
theorem rewriteType_idem (s : String) :
    rewriteType (rewriteType s) = rewriteType s := by
  obtain ⟨h1, h2⟩ := rewriteType_no_occ s
  exact rewriteType_eq_self (decide_eq_false_iff_not.mpr h1)
    (decide_eq_false_iff_not.mpr h2)

/-! ## Dictionary and `optMapM` lemmas -/

theorem jlookup_setKey_self (o : List (String × JValue)) (k : String) (v : JValue) :
    jlookup (setKey o k v) k = some v := by
  induction o with
  | nil => simp [setKey, jlookup]
  | cons p rest ih =>
    obtain ⟨k', v'⟩ := p
    by_cases h : k' = k
    · simp [setKey, h, jlookup]
    · simp [setKey, h, jlookup, ih]

theorem jlookup_setKey_ne (o : List (String × JValue)) {k k2 : String}
    (v : JValue) (h : k2 ≠ k) :
    jlookup (setKey o k v) k2 = jlookup o k2 := by
  induction o with
  | nil =>
    have hne : k ≠ k2 := fun hh => h hh.symm
    simp [setKey, jlookup, hne]
  | cons p rest ih =>
    obtain ⟨k', v'⟩ := p
    by_cases hk : k' = k
    · subst hk
      have hne : k' ≠ k2 := fun hh => h hh.symm
      simp [setKey, jlookup, hne]
    · simp only [setKey, if_neg hk]
      by_cases hk2 : k' = k2
      · simp [jlookup, hk2]
      · simp [jlookup, hk2, ih]

theorem setKey_eq_self {o : List (String × JValue)} {k : String} {v : JValue}
    (h : jlookup o k = some v) : setKey o k v = o := by
  induction o with
  | nil => simp [jlookup] at h
  | cons p rest ih =>
    obtain ⟨k', v'⟩ := p
    by_cases hk : k' = k
    · subst hk
      have h2 : v' = v := by simpa [jlookup] using h
      subst h2
      simp [setKey]
    · simp only [jlookup, if_neg hk] at h
      simp [setKey, hk, ih h]

theorem optMapM_cons (f : α → Option β) (a : α) (as : List α) :
    optMapM f (a :: as) = (f a).bind fun b => (optMapM f as).map fun bs => b :: bs := by
  simp only [optMapM]
  cases f a <;> [rfl; skip]
  cases optMapM f as <;> rfl

theorem optMapM_getElem {f : α → Option β} :
    ∀ {l : List α} {l' : List β}, optMapM f l = some l' →
      ∀ (i : Nat) (a : α), l[i]? = some a →
        ∃ b, f a = some b ∧ l'[i]? = some b := by
  intro l
  induction l with
  | nil => intro l' _ i a ha; simp at ha
  | cons x xs ih =>
    intro l' h i a ha
    rw [optMapM_cons] at h
    cases hx : f x with
    | none => rw [hx] at h; simp at h
    | some b =>
      rw [hx] at h
      cases hxs : optMapM f xs with
      | none => rw [hxs] at h; simp at h
      | some bs =>
        rw [hxs] at h
        simp only [Option.some_bind, Option.map_some', Option.some.injEq] at h
        subst h
        cases i with
        | zero =>
          simp only [List.getElem?_cons_zero, Option.some.injEq] at ha
          subst ha
          exact ⟨b, hx, by simp⟩
        | succ n =>
          simp only [List.getElem?_cons_succ] at ha
          obtain ⟨b', hb', hget⟩ := ih hxs n a ha
          exact ⟨b', hb', by simpa using hget⟩

theorem optMapM_fix {f : α → Option α}
    (hf : ∀ a b, f a = some b → f b = some b) :
    ∀ {l l' : List α}, optMapM f l = some l' → optMapM f l' = some l' := by
  intro l
  induction l with
  | nil =>
    intro l' h
    simp only [optMapM, Option.some.injEq] at h
    subst h; rfl
  | cons x xs ih =>
    intro l' h
    rw [optMapM_cons] at h
    cases hx : f x with
    | none => rw [hx] at h; simp at h
    | some b =>
      rw [hx] at h
      cases hxs : optMapM f xs with
      | none => rw [hxs] at h; simp at h
      | some bs =>
        rw [hxs] at h
        simp only [Option.some_bind, Option.map_some', Option.some.injEq] at h
        subst h
        rw [optMapM_cons, hf x b hx, ih hxs]
        rfl

/-! ## Inversion lemmas for the normalizer pipeline -/

theorem mutComponent_inv {comp comp' : JValue} (h : mutComponent comp = some comp') :
    ∃ o s, comp = .obj o ∧ jlookup o "data_type" = some (.str s) ∧
      comp' = .obj (setKey o "data_type" (.str (rewriteType s))) := by
  cases comp with
  | obj o =>
    simp only [mutComponent] at h
    cases hdt : jlookup o "data_type" with
    | none => rw [hdt] at h; simp at h
    | some v =>
      rw [hdt] at h
      cases v with
      | str s =>
        simp only [Option.some.injEq] at h
        exact ⟨o, s, rfl, hdt, h.symm⟩
      | bool b => simp at h
      | num n => simp at h
      | arr l => simp at h
      | obj l => simp at h
  | str s => simp [mutComponent] at h
  | bool b => simp [mutComponent] at h
  | num n => simp [mutComponent] at h
  | arr l => simp [mutComponent] at h

theorem mutDataset_inv {ds ds' : JValue} (h : mutDataset ds = some ds') :
    ∃ o comps comps', ds = .obj o ∧ jlookup o "components" = some (.arr comps) ∧
      optMapM mutComponent comps = some comps' ∧
      ds' = .obj (setKey o "components" (.arr comps')) := by
  cases ds with
  | obj o =>
    simp only [mutDataset] at h
    cases hc : jlookup o "components" with
    | none => rw [hc] at h; simp at h
    | some v =>
      rw [hc] at h
      cases v with
      | arr comps =>
        rw [Option.map_eq_some'] at h
        obtain ⟨comps', hm, hd⟩ := h
        exact ⟨o, comps, comps', rfl, hc, hm, hd.symm⟩
      | str s => simp at h
      | bool b => simp at h
      | num n => simp at h
      | obj l => simp at h
  | str s => simp [mutDataset] at h
  | bool b => simp [mutDataset] at h
  | num n => simp [mutDataset] at h
  | arr l => simp [mutDataset] at h

theorem mutStructures_inv {d d' : JValue} (h : mutStructures d = some d') :
    ∃ o dss dss', d = .obj o ∧ jlookup o "structures" = some (.arr dss) ∧
      optMapM mutDataset dss = some dss' ∧
      d' = .obj (setKey o "structures" (.arr dss')) := by
  cases d with
  | obj o =>
    simp only [mutStructures] at h
    cases hc : jlookup o "structures" with
    | none => rw [hc] at h; simp at h
    | some v =>
      rw [hc] at h
      cases v with
      | arr dss =>
        rw [Option.map_eq_some'] at h
        obtain ⟨dss', hm, hd⟩ := h
        exact ⟨o, dss, dss', rfl, hc, hm, hd.symm⟩
      | str s => simp at h
      | bool b => simp at h
      | num n => simp at h
      | obj l => simp at h
  | str s => simp [mutStructures] at h
  | bool b => simp [mutStructures] at h
  | num n => simp [mutStructures] at h
  | arr l => simp [mutStructures] at h

theorem formatComponent_inv {comp comp' : JValue}
    (h : formatComponent comp = some comp') :
    ∃ o nm dt role, comp = .obj o ∧ jlookup o "name" = some nm ∧
      jlookup o "data_type" = some dt ∧ jlookup o "role" = some role ∧
      comp' = .obj [("name", nm), ("type", dt), ("role", role),
        ("nullable", (jlookup o "nullable").getD (.bool (!isIdentifierRole role)))] := by
  cases comp with
  | obj o =>
    simp only [formatComponent] at h
    cases hn : jlookup o "name" with
    | none => rw [hn] at h; simp at h
    | some nm =>
      rw [hn] at h
      cases hd : jlookup o "data_type" with
      | none => rw [hd] at h; simp at h
      | some dt =>
        rw [hd] at h
        cases hr : jlookup o "role" with
        | none => rw [hr] at h; simp at h
        | some role =>
          rw [hr] at h
          simp only [Option.bind_eq_bind, Option.some_bind, Option.some.injEq] at h
          refine ⟨o, nm, dt, role, rfl, hn, hd, hr, ?_⟩
          rw [← h]
          cases hnl : jlookup o "nullable" <;> simp [hnl, Option.getD]
  | str s => simp [formatComponent] at h
  | bool b => simp [formatComponent] at h
  | num n => simp [formatComponent] at h
  | arr l => simp [formatComponent] at h

theorem formatDataset_inv {ds ds' : JValue} (h : formatDataset ds = some ds') :
    ∃ o nm comps comps', ds = .obj o ∧ jlookup o "name" = some nm ∧
      jlookup o "components" = some (.arr comps) ∧
      optMapM formatComponent comps = some comps' ∧
      ds' = .obj [("name", nm), ("DataStructure", .arr comps')] := by
  cases ds with
  | obj o =>
    simp only [formatDataset] at h
    cases hn : jlookup o "name" with
    | none => rw [hn] at h; simp at h
    | some nm =>
      rw [hn] at h
      cases hc : jlookup o "components" with
      | none => rw [hc] at h; simp at h
      | some v =>
        rw [hc] at h
        cases v with
        | arr comps =>
          simp only [Option.bind_eq_bind, Option.some_bind] at h
          cases hm : optMapM formatComponent comps with
          | none => rw [hm] at h; simp at h
          | some comps' =>
            rw [hm] at h
            simp only [Option.bind_eq_bind, Option.some_bind, Option.some.injEq] at h
            exact ⟨o, nm, comps, comps', rfl, hn, hc, hm, h.symm⟩
        | str s => simp at h
        | bool b => simp at h
        | num n => simp at h
        | obj l => simp at h
  | str s => simp [formatDataset] at h
  | bool b => simp [formatDataset] at h
  | num n => simp [formatDataset] at h
  | arr l => simp [formatDataset] at h

theorem buildOutput_inv {d out : JValue} (h : buildOutput d = some out) :
    ∃ o dss dss', d = .obj o ∧ jlookup o "structures" = some (.arr dss) ∧
      optMapM formatDataset dss = some dss' ∧
      out = .obj [("datasets", .arr dss')] := by
  cases d with
  | obj o =>
    simp only [buildOutput] at h
    cases hc : jlookup o "structures" with
    | none => rw [hc] at h; simp at h
    | some v =>
      rw [hc] at h
      cases v with
      | arr dss =>
        rw [Option.map_eq_some'] at h
        obtain ⟨dss', hm, hd⟩ := h
        exact ⟨o, dss, dss', rfl, hc, hm, hd.symm⟩
      | str s => simp at h
      | bool b => simp at h
      | num n => simp at h
      | obj l => simp at h
  | str s => simp [buildOutput] at h
  | bool b => simp [buildOutput] at h
  | num n => simp [buildOutput] at h
  | arr l => simp [buildOutput] at h

theorem format_structure_inv {d d' out : JValue}
    (h : format_structure d = some (d', out)) :
    mutStructures d = some d' ∧ buildOutput d' = some out := by
  unfold format_structure at h
  cases hm : mutStructures d with
  | none => rw [hm] at h; simp at h
  | some dm =>
    rw [hm] at h
    simp only [Option.bind_eq_bind, Option.some_bind] at h
    cases hb : buildOutput dm with
    | none => rw [hb] at h; simp at h
    | some ob =>
      rw [hb] at h
      simp only [Option.some_bind, Option.some.injEq, Prod.mk.injEq] at h
      obtain ⟨h1, h2⟩ := h
      subst h1
      subst h2
      exact ⟨rfl, hb⟩

/-! ## The mutation pass is a projection (its image is its fixed points) -/

theorem mutComponent_fix {comp comp' : JValue}
    (h : mutComponent comp = some comp') : mutComponent comp' = some comp' := by
  obtain ⟨o, s, rfl, hdt, rfl⟩ := mutComponent_inv h
  simp only [mutComponent, jlookup_setKey_self, rewriteType_idem]
  rw [setKey_eq_self (jlookup_setKey_self o "data_type" (.str (rewriteType s)))]

theorem mutDataset_fix {ds ds' : JValue}
    (h : mutDataset ds = some ds') : mutDataset ds' = some ds' := by
  obtain ⟨o, comps, comps', rfl, hc, hm, rfl⟩ := mutDataset_inv h
  simp only [mutDataset, jlookup_setKey_self]
  rw [optMapM_fix (fun a b hab => mutComponent_fix hab) hm]
  simp only [Option.map_some', Option.some.injEq]
  rw [setKey_eq_self (jlookup_setKey_self o "components" (.arr comps'))]

theorem mutStructures_fix {d d' : JValue}
    (h : mutStructures d = some d') : mutStructures d' = some d' := by
  obtain ⟨o, dss, dss', rfl, hc, hm, rfl⟩ := mutStructures_inv h
  simp only [mutStructures, jlookup_setKey_self]
  rw [optMapM_fix (fun a b hab => mutDataset_fix hab) hm]
  simp only [Option.map_some', Option.some.injEq]
  rw [setKey_eq_self (jlookup_setKey_self o "structures" (.arr dss'))]

/-- Re-running `format_structure` on the already mutated input returns the
same mutated input and the same output. -/
theorem format_structure_fix {d d' out : JValue}
    (h : format_structure d = some (d', out)) :
    format_structure d' = some (d', out) := by
  have hm : mutStructures d = some d' := (format_structure_inv h).1
  have hb : buildOutput d' = some out := (format_structure_inv h).2
  unfold format_structure
  rw [mutStructures_fix hm]
  simp only [Option.bind_eq_bind, Option.some_bind]
  rw [hb]
  rfl

theorem optMapM_id {f : α → Option α} :
    ∀ {l : List α}, (∀ a ∈ l, f a = some a) → optMapM f l = some l := by
  intro l
  induction l with
  | nil => intro _; rfl
  | cons x xs ih =>
    intro h
    rw [optMapM_cons, h x (by simp), ih fun a ha => h a (by simp [ha])]
    rfl

/-! ## Position-indexed behaviour of the mutation and output passes -/

theorem format_chain {d d' ds comp : JValue} {i j : Nat}
    (hm : mutStructures d = some d')
    (hds : (jget d "structures").bind (fun v => jidx v i) = some ds)
    (hcomp : (jget ds "components").bind (fun v => jidx v j) = some comp) :
    ∃ oc s ds' comp',
      comp = .obj oc ∧ jlookup oc "data_type" = some (.str s) ∧
      (jget d' "structures").bind (fun v => jidx v i) = some ds' ∧
      (jget ds' "components").bind (fun v => jidx v j) = some comp' ∧
      comp' = .obj (setKey oc "data_type" (.str (rewriteType s))) := by
  obtain ⟨o, dss, dss', rfl, hstr, hmm, rfl⟩ := mutStructures_inv hm
  rw [show jget (.obj o) "structures" = some (.arr dss) from hstr] at hds
  simp only [Option.some_bind, jidx] at hds
  obtain ⟨ds2, hds2, hds2'⟩ := optMapM_getElem hmm i ds hds
  obtain ⟨od, comps, comps2, rfl, hcomps, hmc, rfl⟩ := mutDataset_inv hds2
  rw [show jget (.obj od) "components" = some (.arr comps) from hcomps] at hcomp
  simp only [Option.some_bind, jidx] at hcomp
  obtain ⟨comp2, hcomp2, hcomp2'⟩ := optMapM_getElem hmc j comp hcomp
  obtain ⟨oc, s, rfl, hdt, rfl⟩ := mutComponent_inv hcomp2
  refine ⟨oc, s, .obj (setKey od "components" (.arr comps2)),
    .obj (setKey oc "data_type" (.str (rewriteType s))), rfl, hdt, ?_, ?_, rfl⟩
  · show (jlookup (setKey o "structures" (.arr dss')) "structures").bind
      (fun v => jidx v i) = _
    rw [jlookup_setKey_self]
    simpa [jidx] using hds2'
  · show (jlookup (setKey od "components" (.arr comps2)) "components").bind
      (fun v => jidx v j) = _
    rw [jlookup_setKey_self]
    simpa [jidx] using hcomp2'

theorem output_chain {d' out ds' comp' : JValue} {i j : Nat}
    (hb : buildOutput d' = some out)
    (hds : (jget d' "structures").bind (fun v => jidx v i) = some ds')
    (hcomp : (jget ds' "components").bind (fun v => jidx v j) = some comp') :
    ∃ oDs oComp,
      (jget out "datasets").bind (fun v => jidx v i) = some oDs ∧
      (jget oDs "DataStructure").bind (fun v => jidx v j) = some oComp ∧
      formatComponent comp' = some oComp := by
  obtain ⟨o, dss, dss', rfl, hstr, hfm, rfl⟩ := buildOutput_inv hb
  rw [show jget (.obj o) "structures" = some (.arr dss) from hstr] at hds
  simp only [Option.some_bind, jidx] at hds
  obtain ⟨oDs, hfds, hoDs⟩ := optMapM_getElem hfm i ds' hds
  obtain ⟨od, nm, comps, fcomps, rfl, hnm, hcomps, hfc, rfl⟩ := formatDataset_inv hfds
  rw [show jget (.obj od) "components" = some (.arr comps) from hcomps] at hcomp
  simp only [Option.some_bind, jidx] at hcomp
  obtain ⟨oComp, hfcomp, hoComp⟩ := optMapM_getElem hfc j comp' hcomp
  refine ⟨.obj [("name", nm), ("DataStructure", .arr fcomps)], oComp, ?_, ?_, hfcomp⟩
  · show (jlookup [("datasets", .arr dss')] "datasets").bind (fun v => jidx v i) = _
    simp only [jlookup, if_pos rfl, Option.some_bind, jidx]
    exact hoDs
  · show (jlookup [("name", nm), ("DataStructure", .arr fcomps)]
      "DataStructure").bind (fun v => jidx v j) = _
    simp only [jlookup, if_neg (by decide : ¬ ("name" : String) = "DataStructure"),
      if_pos rfl, Option.some_bind, jidx]
    exact hoComp

/-! ## Newline flattening -/

theorem singleton_infix_iff_mem {a : Char} {l : List Char} :
    [a] <:+: l ↔ a ∈ l := by
  constructor
  · rintro ⟨s, t, rfl⟩
    simp
  · intro h
    obtain ⟨s, t, rfl⟩ := List.append_of_mem h
    exact ⟨s, t, by simp⟩

theorem replaceFuel_singleton (a b : Char) :
    ∀ fuel (l : List Char), l.length ≤ fuel →
      replaceFuel [a] [b] fuel l = l.map fun c => if c = a then b else c := by
  intro fuel
  induction fuel with
  | zero =>
    intro l hl
    have : l = [] := List.eq_nil_of_length_eq_zero (Nat.le_zero.mp hl)
    subst this
    rfl
  | succ fuel ih =>
    intro l hl
    cases l with
    | nil => rfl
    | cons c cs =>
      have hcs : cs.length ≤ fuel := by simp only [List.length_cons] at hl; omega
      by_cases hc : c = a
      · subst hc
        rw [replaceFuel_succ_pos [c] [b] fuel
          ⟨List.cons_prefix_cons.mpr ⟨rfl, List.nil_prefix⟩, by simp⟩]
        simp only [List.length_cons, List.length_nil, List.drop_succ_cons,
          List.drop_zero, List.map_cons, if_pos rfl]
        rw [ih cs hcs]
        rfl
      · rw [replaceFuel_succ_neg [a] [b] fuel
          (fun hh => hc (List.cons_prefix_cons.mp hh.1).1.symm)]
        simp only [List.map_cons, if_neg hc]
        rw [ih cs hcs]

theorem map_swap_id {a b : Char} :
    ∀ {l : List Char}, a ∉ l → (l.map fun c => if c = a then b else c) = l := by
  intro l
  induction l with
  | nil => intro _; rfl
  | cons c cs ih =>
    intro h
    have hc : ¬ c = a := fun hh => h (hh ▸ List.mem_cons_self c cs)
    simp only [List.map_cons, if_neg hc]
    rw [ih fun hh => h (List.mem_cons_of_mem c hh)]

theorem flattenError_toList (msg : String) :
    (flattenError msg).toList = msg.toList.map fun c => if c = '\n' then ' ' else c := by
  unfold flattenError
  by_cases hg : pyIn "\n" msg = true
  · rw [if_pos hg]
    exact replaceFuel_singleton '\n' ' ' _ _ le_rfl
  · rw [if_neg hg]
    have hmem : '\n' ∉ msg.toList := fun hmem =>
      hg (decide_eq_true_iff.mpr (singleton_infix_iff_mem.mpr hmem))
    exact (map_swap_id hmem).symm

theorem flattenError_ne_empty {msg : String} (h : msg ≠ "") :
    flattenError msg ≠ "" := by
  intro hc
  apply h
  have hlen := congrArg List.length (flattenError_toList msg)
  rw [hc] at hlen
  have h0 : ("" : String).toList = [] := rfl
  rw [h0] at hlen
  simp only [List.length_nil, List.length_map] at hlen
  have hnil : msg.toList = [] := List.eq_nil_of_length_eq_zero hlen.symm
  rw [String.ext_iff]
  exact hnil

/-! ## Membership in the collected results -/

theorem mem_groupResults {st ni : Option SelDict}
    {rc : String → String → Outcome} {g : String} {cases : List String}
    {o : Outcome} (h : o ∈ groupResults st ni rc g cases) :
    (∃ t, o = ⟨g, t, "Not implemented", ""⟩) ∨
    (∃ t, t ∈ cases ∧ shouldRun st ni g t = true ∧ o = rc g t) := by
  unfold groupResults at h
  by_cases ha : allowPass st g = true
  · rw [if_pos ha, List.mem_append] at h
    rcases h with h | h
    · by_cases hd : denyKeyHit ni g = true
      · rw [if_pos hd, List.mem_map] at h
        obtain ⟨t, _, rfl⟩ := h
        exact Or.inl ⟨t, rfl⟩
      · rw [if_neg hd] at h
        simp at h
    · rw [List.mem_map] at h
      obtain ⟨t, ht, rfl⟩ := h
      rw [List.mem_filter] at ht
      exact Or.inr ⟨t, ht.1, ht.2, rfl⟩
  · rw [if_neg ha] at h
    simp at h

theorem mem_mainResults {dirs : List (String × List String)}
    {st ni : Option SelDict} {rc : String → String → Outcome}
    {o : Outcome} (h : o ∈ mainResults dirs st ni rc) :
    (∃ g t, o = ⟨g, t, "Not implemented", ""⟩) ∨ (∃ g t, o = rc g t) := by
  unfold mainResults at h
  rw [List.mem_flatten] at h
  obtain ⟨l, hl, hol⟩ := h
  rw [List.mem_map] at hl
  obtain ⟨p, _, rfl⟩ := hl
  rcases mem_groupResults hol with ⟨t, rfl⟩ | ⟨t, _, _, rfl⟩
  · exact Or.inl ⟨p.1, t, rfl⟩
  · exact Or.inr ⟨p.1, t, rfl⟩

/-! ## Claim theorems -/

/-- C4: the Case Executor `run_test`, given any test-case directory and
operator-group label, returns exactly one outcome carrying that directory
and label, and never propagates an exception: a failure raised anywhere in
its body becomes a Fail outcome whose detail is the exception's message
with every embedded line break replaced by a space (characterized as a
character map), while a completed comparison yields Ok with empty detail
or Fail with the fixed detail `"Assertion Error"`. -/
theorem c4_executor_converts_failures (testDir operator : String) :
    (∀ exec, (run_test testDir operator exec).operator = operator ∧
      (run_test testDir operator exec).testName = testDir) ∧
    (∀ msg, run_test testDir operator (.raises msg)
        = ⟨operator, testDir, "Fail", flattenError msg⟩ ∧
      (flattenError msg).toList
        = msg.toList.map fun c => if c = '\n' then ' ' else c) ∧
    run_test testDir operator (.completes true) = ⟨operator, testDir, "Ok", ""⟩ ∧
    run_test testDir operator (.completes false)
      = ⟨operator, testDir, "Fail", "Assertion Error"⟩ := by
  refine ⟨fun exec => ?_, fun msg => ⟨rfl, flattenError_toList msg⟩, rfl, rfl⟩
  cases exec with
  | raises msg => exact ⟨rfl, rfl⟩
  | completes b => cases b <;> exact ⟨rfl, rfl⟩

/-- C5: the Run Summary satisfies total = number of outcomes, passed =
number of Ok outcomes, failed = total - passed, and pass-percentage =
passed * 100 / total with floor division, defined as 0 when total is 0;
for the outcomes [Ok, Ok, Fail, Not implemented] this gives total=4,
passed=2, failed=2, percentage=50, and for zero outcomes no division
error occurs. -/
theorem c5_summary_arithmetic :
    (∀ (results : List Outcome) (ni : SelDict) (s : Summary),
      computeSummary results (some ni) = some s →
      s.totalTests = results.length ∧
      s.passedTests = (results.filter fun o => o.result == "Ok").length ∧
      s.failedTests = s.totalTests - s.passedTests ∧
      s.successPercentage =
        if s.totalTests = 0 then 0 else s.passedTests * 100 / s.totalTests) ∧
    computeSummary exSummaryOutcomes (some []) = some ⟨0, 4, 2, 2, 50⟩ ∧
    computeSummary [] (some []) = some ⟨0, 0, 0, 0, 0⟩ := by
  refine ⟨?_, by decide, by decide⟩
  intro results ni s h
  simp only [computeSummary, notImplementedCount, Option.map_some',
    Option.some.injEq] at h
  subst h
  refine ⟨rfl, rfl, rfl, ?_⟩
  by_cases h0 : results.length = 0 <;> simp [h0]

/-- Witness for C5 at the specification's example outcome list. -/
theorem c5_summary_arithmetic_witness :
    (⟨0, 4, 2, 2, 50⟩ : Summary).totalTests = exSummaryOutcomes.length ∧
    (⟨0, 4, 2, 2, 50⟩ : Summary).passedTests
      = (exSummaryOutcomes.filter fun o => o.result == "Ok").length ∧
    (⟨0, 4, 2, 2, 50⟩ : Summary).failedTests
      = (⟨0, 4, 2, 2, 50⟩ : Summary).totalTests
        - (⟨0, 4, 2, 2, 50⟩ : Summary).passedTests ∧
    (⟨0, 4, 2, 2, 50⟩ : Summary).successPercentage =
      if (⟨0, 4, 2, 2, 50⟩ : Summary).totalTests = 0 then 0
      else (⟨0, 4, 2, 2, 50⟩ : Summary).passedTests * 100
        / (⟨0, 4, 2, 2, 50⟩ : Summary).totalTests :=
  c5_summary_arithmetic.1 exSummaryOutcomes [] ⟨0, 4, 2, 2, 50⟩ (by decide)

/-- C6 (code bug): a run with `not_implemented = None` reaches line 120,
where `None.values()` raises `AttributeError`, so no summary is computed or
printed; with any non-`None` deny-list the summary is always produced.
The claim (and the function's own `Optional[...] = None` signature and
comments) say a `None` deny-list is a legal input for which the summary is
printed. -/
theorem c6_none_denylist_crashes :
    main [("G1", ["c1"])] none none exRunCase = none ∧
    (∀ (dirs : List (String × List String)) (st : Option SelDict)
      (ni : SelDict) (rc : String → String → Outcome),
      (main dirs st (some ni) rc).isSome = true) := by
  refine ⟨rfl, ?_⟩
  intro dirs st ni rc
  simp [main, computeSummary, notImplementedCount]

/-- C8: the record file is produced exactly when the run is unfiltered
(`selected_tests` is `None` or `{}`, i.e. falsy), and its content is the
fixed header row followed by one row per outcome in encounter order;
filtered runs produce no file. -/
theorem c8_record_file :
    (∀ (selected_tests : Option SelDict) (results : List Outcome),
      recordFile selected_tests results ≠ none ↔ truthy selected_tests = false) ∧
    (∀ (selected_tests : Option SelDict) (results : List Outcome)
      (rows : List (List String)),
      recordFile selected_tests results = some rows →
      rows = ["Operator", "Example", "Result", "Error"]
        :: results.map fun o => [o.operator, o.testName, o.result, o.error]) := by
  constructor
  · intro st results
    cases st with
    | none => simp [recordFile, truthy]
    | some l =>
      cases l with
      | nil => simp [recordFile, truthy]
      | cons p ps => simp [recordFile, truthy]
  · intro st results rows h
    unfold recordFile at h
    by_cases hc : st = none ∨ st = some []
    · rw [if_pos hc] at h
      exact (Option.some.inj h).symm
    · rw [if_neg hc] at h
      exact absurd h (by simp)

/-- Witness for C8 on a one-outcome unfiltered run. -/
theorem c8_record_file_witness :
    [["Operator", "Example", "Result", "Error"], ["G", "c", "Ok", ""]]
      = ["Operator", "Example", "Result", "Error"]
        :: [(⟨"G", "c", "Ok", ""⟩ : Outcome)].map
            (fun o => [o.operator, o.testName, o.result, o.error]) :=
  c8_record_file.2 none [⟨"G", "c", "Ok", ""⟩]
    [["Operator", "Example", "Result", "Error"], ["G", "c", "Ok", ""]] (by decide)

/-- C2 counterexample: the value `format_structure` returns does not carry
the `structures` key, so applying `format_structure` to its own result
raises (`KeyError`); applying the normalizer twice therefore differs from
applying it once on this schema description. -/
theorem c2_normalizer_idem_cex :
    (formatStructureRet exInput).bind formatStructureRet
      ≠ formatStructureRet exInput := by
  have h1 : (formatStructureRet exInput).bind formatStructureRet = none := rfl
  have h2 : formatStructureRet exInput = some exOutput := rfl
  rw [h1, h2]
  exact fun h => Option.noConfusion h

/-- C2 amended: the normalizer is idempotent in the state-passing sense:
re-running `format_structure` on the mutated input (the post-call state of
its argument) succeeds, leaves that input unchanged and returns the same
canonical structure; composing `format_structure` with itself on its
returned value, however, fails because the returned shape is not a raw
schema description. -/
theorem c2_normalizer_idem_amended (d d' out : JValue)
    (h : format_structure d = some (d', out)) :
    format_structure d' = some (d', out) ∧
    formatStructureRet d' = formatStructureRet d := by
  refine ⟨format_structure_fix h, ?_⟩
  unfold formatStructureRet
  rw [h, format_structure_fix h]

/-- Witness for C2's amended statement on the example schema. -/
theorem c2_normalizer_idem_amended_witness :
    format_structure exInputMut = some (exInputMut, exOutput) ∧
    formatStructureRet exInputMut = formatStructureRet exInput :=
  c2_normalizer_idem_amended exInput exInputMut exOutput rfl

/-- C9 counterexample: the normalizer mutates the caller's input in place —
after the call on `exInput`, the argument's first component holds the
rewritten tag `Time_Period`, so the input is not left unchanged. -/
theorem c9_no_mutation_cex :
    formatStructureArg exInput = some exInputMut ∧ exInputMut ≠ exInput := by
  refine ⟨rfl, ?_⟩
  intro h
  have h2 := congrArg (fun d =>
    ((((jget d "structures").bind fun v => jidx v 0).bind
      fun v => jget v "components").bind fun v => jidx v 0).bind
      fun v => jget v "data_type") h
  have h3 : (some (JValue.str "Time_Period") : Option JValue)
      = some (JValue.str "TimePeriod") := h2
  have h4 := Option.some.inj h3
  injection h4 with h5
  exact absurd h5 (by decide)

/-- C3 counterexample: when a step inside `run_test` raises an exception
whose message is empty, the produced outcome has status Fail and empty
detail, so "detail is non-empty iff status is Fail" does not hold for
every produced outcome. -/
theorem c3_detail_iff_fail_cex :
    ¬ (∀ o ∈ mainResults [("G1", ["c1"])] none none
          (envCase fun _ _ => .raises ""),
        (o.error ≠ "" ↔ o.result = "Fail")) := by
  intro h
  have hlist : mainResults [("G1", ["c1"])] none none
      (envCase fun _ _ => .raises "") = [⟨"G1", "c1", "Fail", ""⟩] := rfl
  rw [hlist] at h
  have h2 := h ⟨"G1", "c1", "Fail", ""⟩ (List.mem_singleton.mpr rfl)
  simp at h2

/-- C3 amended: for every produced outcome, a non-empty detail implies
status Fail, and any Ok or Not-implemented outcome has empty detail; the
full equivalence (detail non-empty iff status Fail) holds whenever every
exception raised by the environment carries a non-empty message, since a
comparison mismatch always carries the fixed non-empty detail. -/
theorem c3_detail_iff_fail_amended
    (dirs : List (String × List String))
    (selected_tests not_implemented : Option SelDict)
    (env : String → String → ExecOutcome) :
    (∀ o ∈ mainResults dirs selected_tests not_implemented (envCase env),
      (o.error ≠ "" → o.result = "Fail") ∧ (o.result ≠ "Fail" → o.error = "")) ∧
    ((∀ g t msg, env g t = .raises msg → msg ≠ "") →
      ∀ o ∈ mainResults dirs selected_tests not_implemented (envCase env),
        (o.error ≠ "" ↔ o.result = "Fail")) := by
  constructor
  · intro o ho
    rcases mem_mainResults ho with ⟨g, t, rfl⟩ | ⟨g, t, rfl⟩
    · exact ⟨fun h => absurd rfl h, fun _ => rfl⟩
    · simp only [envCase]
      cases env g t with
      | raises msg => exact ⟨fun _ => rfl, fun h => absurd rfl h⟩
      | completes b =>
        cases b
        · exact ⟨fun _ => rfl, fun h => absurd rfl h⟩
        · exact ⟨fun h => absurd rfl h, fun _ => rfl⟩
  · intro henv o ho
    rcases mem_mainResults ho with ⟨g, t, rfl⟩ | ⟨g, t, rfl⟩
    · exact ⟨fun h => absurd rfl h, fun h => by simp at h⟩
    · simp only [envCase]
      cases henv' : env g t with
      | raises msg =>
        constructor
        · intro _
          rfl
        · intro _
          exact flattenError_ne_empty (henv g t msg henv')
      | completes b =>
        cases b
        · constructor
          · intro _
            rfl
          · intro _
            show ("Assertion Error" : String) ≠ ""
            decide
        · constructor
          · intro h
            exact absurd rfl h
          · intro h
            have hof : ("Ok" : String) = "Fail" := h
            exact absurd hof (by decide)

/-- Witness for C3's amended statement: the Fail outcome of a raising case
with a non-empty message satisfies the equivalence. -/
theorem c3_detail_iff_fail_amended_witness :
    ((⟨"G1", "c1", "Fail", "boom"⟩ : Outcome).error ≠ ""
      ↔ (⟨"G1", "c1", "Fail", "boom"⟩ : Outcome).result = "Fail") :=
  (c3_detail_iff_fail_amended [("G1", ["c1", "c2"])] none
    (some [("G1", .list ["c3"])])
    (fun _ t => if t == "c1" then .raises "boom" else .completes true)).2
    (by intro g t msg h
        by_cases hc : (t == "c1") = true
        · rw [if_pos hc] at h
          cases h
          decide
        · rw [if_neg hc] at h
          cases h)
    ⟨"G1", "c1", "Fail", "boom"⟩ (by decide)

/-- C10: when the deny-list maps a group to a single string rather than a
list, the synthesized Not-implemented rows come from iterating that string
as a character sequence: one outcome per character, not one for the named
case. -/
theorem c10_string_deny_iterates_chars
    (selected_tests not_implemented : Option SelDict)
    (runCase : String → String → Outcome) (g : String) (cases : List String)
    (s : String)
    (hd : truthy not_implemented = true)
    (hk : optHasKey not_implemented g = true)
    (hv : optGetD not_implemented g = SelVal.str s)
    (ha : allowPass selected_tests g = true) :
    groupResults selected_tests not_implemented runCase g cases =
      (s.toList.map fun ch => (⟨g, String.mk [ch], "Not implemented", ""⟩ : Outcome))
        ++ (cases.filter (shouldRun selected_tests not_implemented g)).map
            (runCase g) := by
  unfold groupResults
  rw [if_pos ha, if_pos (show denyKeyHit not_implemented g = true by
    simp [denyKeyHit, hd, hk]), hv]
  simp [SelVal.iter, List.map_map, Function.comp]

/-- Witness for C10: deny-list `{"G1": "c2"}` yields one Not-implemented
row per character of `"c2"`, and also skips the discovered case `c2`
(whose name is a substring of `"c2"`). -/
theorem c10_string_deny_iterates_chars_witness :
    groupResults none (some [("G1", SelVal.str "c2")]) exRunCase "G1"
        ["c1", "c2", "c3"]
      = [⟨"G1", "c", "Not implemented", ""⟩, ⟨"G1", "2", "Not implemented", ""⟩,
         ⟨"G1", "c1", "Ok", ""⟩, ⟨"G1", "c3", "Ok", ""⟩] :=
  (c10_string_deny_iterates_chars none (some [("G1", SelVal.str "c2")]) exRunCase
    "G1" ["c1", "c2", "c3"] "c2" (by decide) (by decide) (by decide)
    (by decide)).trans (by decide)

/-- C7: nullability defaulting — in the structure returned by
`format_structure`, the component at any position carries, as its
`nullable` field, the raw component's explicit `nullable` value verbatim
when one is present, and otherwise the boolean `role != "Identifier"`
(false exactly for Identifier roles). -/
theorem c7_nullability_defaulting
    (d d' out ds comp role : JValue) (i j : Nat)
    (hfs : format_structure d = some (d', out))
    (hds : (jget d "structures").bind (fun v => jidx v i) = some ds)
    (hcomp : (jget ds "components").bind (fun v => jidx v j) = some comp)
    (hrole : jget comp "role" = some role) :
    ∃ oDs oComp,
      (jget out "datasets").bind (fun v => jidx v i) = some oDs ∧
      (jget oDs "DataStructure").bind (fun v => jidx v j) = some oComp ∧
      jget oComp "nullable"
        = some ((jget comp "nullable").getD (.bool (!isIdentifierRole role))) := by
  obtain ⟨hm, hb⟩ := format_structure_inv hfs
  obtain ⟨oc, s, ds2, comp2, rfl, hdt, hds', hcomp', rfl⟩ := format_chain hm hds hcomp
  obtain ⟨oDs, oComp, hout1, hout2, hfc⟩ := output_chain hb hds' hcomp'
  obtain ⟨o2, nm, dt2, role2, hobj, hnm, hdt2, hrole2, rfl⟩ := formatComponent_inv hfc
  injection hobj with ho2
  subst ho2
  have hrr : role2 = role := by
    rw [jlookup_setKey_ne oc (JValue.str (rewriteType s))
      (show ("role" : String) ≠ "data_type" by decide)] at hrole2
    have h2 : jlookup oc "role" = some role := hrole
    rw [hrole2] at h2
    exact Option.some.inj h2
  subst hrr
  refine ⟨oDs, _, hout1, hout2, ?_⟩
  show jlookup [("name", nm), ("type", dt2), ("role", role2),
    ("nullable", (jlookup (setKey oc "data_type" (JValue.str (rewriteType s)))
      "nullable").getD (.bool (!isIdentifierRole role2)))] "nullable" = _
  rw [show jlookup (setKey oc "data_type" (JValue.str (rewriteType s))) "nullable"
      = jlookup oc "nullable" from
    jlookup_setKey_ne oc _ (show ("nullable" : String) ≠ "data_type" by decide)]
  simp only [jlookup, if_neg (show ¬ ("name" : String) = "nullable" by decide),
    if_neg (show ¬ ("type" : String) = "nullable" by decide),
    if_neg (show ¬ ("role" : String) = "nullable" by decide), if_pos rfl]
  rfl

/-- Witness for C7: the Identifier component of the example schema has no
explicit `nullable`, and its normalized `nullable` is `false`. -/
theorem c7_nullability_defaulting_witness :
    ∃ oDs oComp,
      (jget exOutput "datasets").bind (fun v => jidx v 0) = some oDs ∧
      (jget oDs "DataStructure").bind (fun v => jidx v 0) = some oComp ∧
      jget oComp "nullable"
        = some ((jget (.obj [("name", .str "Id_1"),
              ("data_type", .str "TimePeriod"), ("role", .str "Identifier")])
            "nullable").getD (.bool (!isIdentifierRole (.str "Identifier")))) :=
  c7_nullability_defaulting exInput exInputMut exOutput
    (.obj [("name", .str "DS_1"), ("components", .arr [
      .obj [("name", .str "Id_1"), ("data_type", .str "TimePeriod"),
        ("role", .str "Identifier")],
      .obj [("name", .str "Me_1"), ("data_type", .str "String"),
        ("role", .str "Measure")],
      .obj [("name", .str "At_1"), ("data_type", .str "TimeInterval"),
        ("role", .str "Attribute"), ("nullable", .bool false)]])])
    (.obj [("name", .str "Id_1"), ("data_type", .str "TimePeriod"),
      ("role", .str "Identifier")])
    (.str "Identifier") 0 0 rfl rfl rfl rfl

/-- C9 amended: the normalizer's only side effect on the caller's input is
the in-place type-tag rewrite: at each position the mutated component carries
`rewriteType` of its original `data_type` and is unchanged in every other
field; when no component's `data_type` contains `TimePeriod` or
`TimeInterval`, the input is left completely unchanged. -/
theorem c9_mutation_characterized
    (d d' : JValue) (h : mutStructures d = some d') :
    (∀ (i j : Nat) (ds comp : JValue),
      (jget d "structures").bind (fun v => jidx v i) = some ds →
      (jget ds "components").bind (fun v => jidx v j) = some comp →
      ∃ (oc : List (String × JValue)) (s : String) (ds' comp' : JValue),
        comp = .obj oc ∧ jlookup oc "data_type" = some (.str s) ∧
        (jget d' "structures").bind (fun v => jidx v i) = some ds' ∧
        (jget ds' "components").bind (fun v => jidx v j) = some comp' ∧
        jget comp' "data_type" = some (.str (rewriteType s)) ∧
        (∀ k, k ≠ "data_type" → jget comp' k = jget comp k)) ∧
    ((∀ (i j : Nat) (ds comp : JValue) (s : String),
        (jget d "structures").bind (fun v => jidx v i) = some ds →
        (jget ds "components").bind (fun v => jidx v j) = some comp →
        jget comp "data_type" = some (.str s) →
        pyIn "TimePeriod" s = false ∧ pyIn "TimeInterval" s = false) →
      d' = d) := by
  constructor
  · intro i j ds comp hds hcomp
    obtain ⟨oc, s, ds2, comp2, rfl, hdt, hds', hcomp', rfl⟩ :=
      format_chain h hds hcomp
    refine ⟨oc, s, ds2, _, rfl, hdt, hds', hcomp', ?_, ?_⟩
    · show jlookup (setKey oc "data_type" (JValue.str (rewriteType s)))
        "data_type" = _
      rw [jlookup_setKey_self]
    · intro k hk
      show jlookup (setKey oc "data_type" (JValue.str (rewriteType s))) k
        = jlookup oc k
      exact jlookup_setKey_ne oc _ hk
  · intro hclean
    obtain ⟨o, dss, dss', rfl, hstr, hmm', rfl⟩ := mutStructures_inv h
    have hdss : dss' = dss := by
      have hid : optMapM mutDataset dss = some dss := by
        apply optMapM_id
        intro ds hds
        obtain ⟨i, hi⟩ := List.getElem?_of_mem hds
        obtain ⟨ds2, hds2, _⟩ := optMapM_getElem hmm' i ds hi
        obtain ⟨od, comps, comps2, hdso, hcomps, hmc, hds2e⟩ := mutDataset_inv hds2
        have hcc : comps2 = comps := by
          have hcid : optMapM mutComponent comps = some comps := by
            apply optMapM_id
            intro comp hcompm
            obtain ⟨j, hj⟩ := List.getElem?_of_mem hcompm
            obtain ⟨comp2, hcomp2, _⟩ := optMapM_getElem hmc j comp hj
            obtain ⟨oc, s, hcobj, hdt, hc2e⟩ := mutComponent_inv hcomp2
            have hh1 : (jget (JValue.obj o) "structures").bind
                (fun v => jidx v i) = some ds := by
              show (jlookup o "structures").bind (fun v => jidx v i) = some ds
              rw [hstr]
              simpa [jidx] using hi
            have hh2 : (jget ds "components").bind (fun v => jidx v j)
                = some comp := by
              rw [hdso]
              show (jlookup od "components").bind (fun v => jidx v j) = some comp
              rw [hcomps]
              simpa [jidx] using hj
            have hh3 : jget comp "data_type" = some (.str s) := by
              rw [hcobj]
              exact hdt
            have hclean' := hclean i j ds comp s hh1 hh2 hh3
            have hrw : rewriteType s = s :=
              rewriteType_eq_self hclean'.1 hclean'.2
            have hsame : comp2 = comp := by
              rw [hc2e, hrw, setKey_eq_self hdt, ← hcobj]
            rw [hcomp2, hsame]
          rw [hmc] at hcid
          exact Option.some.inj hcid
        have hsame : ds2 = ds := by
          rw [hds2e, hcc, setKey_eq_self hcomps, ← hdso]
        rw [hds2, hsame]
      rw [hmm'] at hid
      exact Option.some.inj hid
    rw [hdss, setKey_eq_self hstr]

/-- Witness for C9's amended statement at the example schema's first
component. -/
theorem c9_mutation_characterized_witness :
    ∃ (oc : List (String × JValue)) (s : String) (ds' comp' : JValue),
      (JValue.obj [("name", .str "Id_1"), ("data_type", .str "TimePeriod"),
        ("role", .str "Identifier")]) = .obj oc ∧
      jlookup oc "data_type" = some (.str s) ∧
      (jget exInputMut "structures").bind (fun v => jidx v 0) = some ds' ∧
      (jget ds' "components").bind (fun v => jidx v 0) = some comp' ∧
      jget comp' "data_type" = some (.str (rewriteType s)) ∧
      (∀ k, k ≠ "data_type" → jget comp' k
        = jget (.obj [("name", .str "Id_1"), ("data_type", .str "TimePeriod"),
            ("role", .str "Identifier")]) k) :=
  (c9_mutation_characterized exInput exInputMut rfl).1 0 0
    (.obj [("name", .str "DS_1"), ("components", .arr [
      .obj [("name", .str "Id_1"), ("data_type", .str "TimePeriod"),
        ("role", .str "Identifier")],
      .obj [("name", .str "Me_1"), ("data_type", .str "String"),
        ("role", .str "Measure")],
      .obj [("name", .str "At_1"), ("data_type", .str "TimeInterval"),
        ("role", .str "Attribute"), ("nullable", .bool false)]])])
    (.obj [("name", .str "Id_1"), ("data_type", .str "TimePeriod"),
      ("role", .str "Identifier")]) rfl rfl

/-! ## Selection precedence -/

theorem filter_notImpl_name (g c : String) (names : List String) :
    ((names.map fun t => (⟨g, t, "Not implemented", ""⟩ : Outcome)).filter
      fun o => o.testName == c)
    = (names.filter fun t => t == c).map
        fun t => (⟨g, t, "Not implemented", ""⟩ : Outcome) := by
  rw [List.filter_map]
  rfl

theorem filter_runCase_name (rc : String → String → Outcome)
    (hrc : ∀ g t, (rc g t).testName = t) (g c : String) (l : List String)
    (hc : c ∉ l) :
    ((l.map (rc g)).filter fun o => o.testName == c) = [] := by
  rw [List.filter_map]
  have hnil : (l.filter ((fun o => o.testName == c) ∘ (rc g))) = [] := by
    rw [List.filter_eq_nil_iff]
    intro t ht hbeq
    have hb2 : (rc g t).testName == c := hbeq
    rw [hrc g t] at hb2
    exact hc (beq_iff_eq.mp hb2 ▸ ht)
  rw [hnil, List.map_nil]

theorem shouldRun_denied {st ni : Option SelDict} {g c : String}
    {l : List String} (hd : truthy ni = true)
    (hv : optGetD ni g = SelVal.list l) (hm : c ∈ l) :
    shouldRun st ni g c = false := by
  unfold shouldRun
  rw [hd, hv]
  have hcont : SelVal.containsName (SelVal.list l) c = true :=
    List.elem_iff.mpr hm
  rw [hcont]
  simp

/-- C1: selection precedence, per (group, case).  Writing "supplied" for a
truthy (non-`None`, non-empty) selection dict: (1) if the allow-list is
supplied and a group is absent from it, that group contributes no outcomes
at all; (2) if the deny-list is supplied and a case name is listed once
under its group, the group contributes exactly one Not-implemented outcome
with empty detail for that name and the Case Executor is never invoked for
it; (3) if the allow-list is supplied and names the group, a case runs iff
its name is among the group's allowed names and it is not deny-listed, and
an un-allowed, un-denied case contributes no outcome at all; (4) with
neither list supplied, every discovered case executes in order. -/
theorem c1_selection_precedence
    (selected_tests not_implemented : Option SelDict)
    (runCase : String → String → Outcome)
    (hrc : ∀ g t, (runCase g t).operator = g ∧ (runCase g t).testName = t) :
    (∀ (g : String) (cases : List String), truthy selected_tests = true →
      optHasKey selected_tests g = false →
      groupResults selected_tests not_implemented runCase g cases = []) ∧
    (∀ (g c : String) (cases : List String) (l : List String),
      truthy not_implemented = true →
      optHasKey not_implemented g = true →
      optGetD not_implemented g = SelVal.list l →
      l.count c = 1 →
      allowPass selected_tests g = true →
      ((groupResults selected_tests not_implemented runCase g cases).filter
          fun o => o.testName == c) = [⟨g, c, "Not implemented", ""⟩] ∧
        c ∉ cases.filter (shouldRun selected_tests not_implemented g)) ∧
    (∀ (g c : String) (al : List String), truthy selected_tests = true →
      optGetD selected_tests g = SelVal.list al →
      (shouldRun selected_tests not_implemented g c = true ↔
        (c ∈ al ∧ ¬(truthy not_implemented = true ∧
          SelVal.containsName (optGetD not_implemented g) c = true)))) ∧
    (∀ (g c : String) (cases : List String) (al : List String),
      truthy selected_tests = true →
      optGetD selected_tests g = SelVal.list al →
      c ∉ al → c ∉ (optGetD not_implemented g).iter →
      ((groupResults selected_tests not_implemented runCase g cases).filter
        fun o => o.testName == c) = []) ∧
    (truthy selected_tests = false → truthy not_implemented = false →
      ∀ dirs : List (String × List String),
        mainResults dirs selected_tests not_implemented runCase
          = (dirs.map fun p => p.2.map (runCase p.1)).flatten) := by
  refine ⟨?_, ?_, ?_, ?_, ?_⟩
  · intro g cases h1 h2
    unfold groupResults
    rw [if_neg]
    simp [allowPass, h1, h2]
  · intro g c cases l hd hk hv hcount hap
    have hmem : c ∈ l := List.count_pos_iff.mp (by omega)
    have hsr : shouldRun selected_tests not_implemented g c = false :=
      shouldRun_denied hd hv hmem
    constructor
    · unfold groupResults
      rw [if_pos hap, if_pos (show denyKeyHit not_implemented g = true by
        simp [denyKeyHit, hd, hk]), hv, List.filter_append]
      have h1 : (((SelVal.list l).iter.map fun t =>
          (⟨g, t, "Not implemented", ""⟩ : Outcome)).filter
            fun o => o.testName == c) = [⟨g, c, "Not implemented", ""⟩] := by
        rw [show (SelVal.list l).iter = l from rfl, filter_notImpl_name,
          List.filter_beq, hcount]
        rfl
      have h2 : (((cases.filter
          (shouldRun selected_tests not_implemented g)).map (runCase g)).filter
            fun o => o.testName == c) = [] := by
        apply filter_runCase_name runCase (fun g t => (hrc g t).2)
        intro hcmem
        rw [List.mem_filter] at hcmem
        rw [hsr] at hcmem
        exact Bool.false_ne_true hcmem.2
      rw [h1, h2, List.append_nil]
    · intro hcmem
      rw [List.mem_filter, hsr] at hcmem
      exact Bool.false_ne_true hcmem.2
  · intro g c al hst hv
    unfold shouldRun
    rw [hst, hv]
    simp only [Bool.not_true, Bool.false_or, Bool.and_eq_true, Bool.or_eq_true,
      Bool.not_eq_true', Bool.not_eq_true]
    constructor
    · intro ⟨h1, h2⟩
      refine ⟨?_, ?_⟩
      · exact List.elem_iff.mp h1
      · intro ⟨hni, hcont⟩
        rcases h2 with h2 | h2
        · rw [hni] at h2; exact Bool.noConfusion h2
        · rw [hcont] at h2; exact Bool.noConfusion h2
    · intro ⟨h1, h2⟩
      refine ⟨List.elem_iff.mpr h1, ?_⟩
      by_cases hni : truthy not_implemented = true
      · right
        by_cases hcont : SelVal.containsName (optGetD not_implemented g) c = true
        · exact absurd ⟨hni, hcont⟩ h2
        · simpa using hcont
      · left
        simpa using hni
  · intro g c cases al hst hv hnal hniter
    unfold groupResults
    by_cases hap : allowPass selected_tests g = true
    · rw [if_pos hap, List.filter_append]
      have h1 : ((if denyKeyHit not_implemented g then
          (optGetD not_implemented g).iter.map fun t =>
            (⟨g, t, "Not implemented", ""⟩ : Outcome)
          else []).filter fun o => o.testName == c) = [] := by
        by_cases hdk : denyKeyHit not_implemented g = true
        · rw [if_pos hdk, filter_notImpl_name]
          have : ((optGetD not_implemented g).iter.filter fun t => t == c) = [] := by
            rw [List.filter_eq_nil_iff]
            intro t ht hbeq
            exact hniter (beq_iff_eq.mp hbeq ▸ ht)
          rw [this, List.map_nil]
        · rw [if_neg hdk, List.filter_nil]
      have h2 : (((cases.filter
          (shouldRun selected_tests not_implemented g)).map (runCase g)).filter
            fun o => o.testName == c) = [] := by
        apply filter_runCase_name runCase (fun g t => (hrc g t).2)
        intro hcmem
        rw [List.mem_filter] at hcmem
        have hsr := hcmem.2
        unfold shouldRun at hsr
        rw [hst, hv] at hsr
        simp only [Bool.not_true, Bool.false_or, Bool.and_eq_true] at hsr
        exact hnal (List.elem_iff.mp hsr.1)
      rw [h1, h2, List.append_nil]
    · rw [if_neg hap, List.filter_nil]
  · intro h1 h2 dirs
    unfold mainResults
    have hg : ∀ p : String × List String,
        groupResults selected_tests not_implemented runCase p.1 p.2
          = p.2.map (runCase p.1) := by
      intro p
      unfold groupResults
      rw [if_pos (by simp [allowPass, h1]),
        if_neg (by simp [denyKeyHit, h2]),
        List.filter_eq_self.mpr fun t _ => by simp [shouldRun, h1, h2]]
      simp
    simp only [hg]

/-- Witness for C1 at the specification's selection scenario: allow-list
`{"G1": ["c1"]}`, deny-list `{"G1": ["c2"]}`, groups `G1` (cases c1 c2 c3)
and `G2` (case c4). -/
theorem c1_selection_precedence_witness :
    groupResults exAllow exDeny exRunCase "G2" ["c4"] = [] ∧
    (((groupResults exAllow exDeny exRunCase "G1" ["c1", "c2", "c3"]).filter
        fun o => o.testName == "c2") = [⟨"G1", "c2", "Not implemented", ""⟩] ∧
      "c2" ∉ ["c1", "c2", "c3"].filter (shouldRun exAllow exDeny "G1")) ∧
    (shouldRun exAllow exDeny "G1" "c1" = true ↔
      ("c1" ∈ ["c1"] ∧ ¬(truthy exDeny = true ∧
        SelVal.containsName (optGetD exDeny "G1") "c1" = true))) ∧
    ((groupResults exAllow exDeny exRunCase "G1" ["c1", "c2", "c3"]).filter
        fun o => o.testName == "c3") = [] ∧
    mainResults exDirs none none exRunCase
      = (exDirs.map fun p => p.2.map (exRunCase p.1)).flatten := by
  have h1 := c1_selection_precedence exAllow exDeny exRunCase
    (fun g t => ⟨rfl, rfl⟩)
  have h2 := c1_selection_precedence none none exRunCase
    (fun g t => ⟨rfl, rfl⟩)
  exact ⟨h1.1 "G2" ["c4"] (by decide) (by decide),
    h1.2.1 "G1" "c2" ["c1", "c2", "c3"] ["c2"] (by decide) (by decide)
      (by decide) (by decide) (by decide),
    h1.2.2.1 "G1" "c1" ["c1"] (by decide) (by decide),
    h1.2.2.2.1 "G1" "c3" ["c1", "c2", "c3"] ["c1"] (by decide) (by decide)
      (by decide) (by decide),
    h2.2.2.2.2 (by decide) (by decide) exDirs⟩

end VtlHarness
